import Mathlib

/-!
Verification of the scheduling data core of the dispensary shift planner.

The store is a SQLite database (`database.py`); we embed it as an explicit
state value (`DB`) holding the rows of each table, and each Python function
as a Lean function over that state.  Calendar dates, stored as ISO-8601
`YYYY-MM-DD` strings in the database, are embedded as `Nat` day numbers
(days since 0000-03-01 in the proleptic Gregorian calendar, the standard
"days from civil" encoding); for well-formed ISO dates the string order the
SQL queries rely on coincides with the numeric order of day numbers.
Wall-clock times stay as `HH:MM` strings, matching the TEXT comparison SQL
performs on them.  Fallible operations return `Except String`.
-/

/-- Day number of a proleptic-Gregorian civil date (days since 0000-03-01),
the standard days-from-civil algorithm.  `toDayNumber 2024 6 3 = 739345`. -/
def toDayNumber (y m d : Nat) : Nat :=
  let y' := if m ≤ 2 then y - 1 else y
  let era := y' / 400
  let yoe := y' - era * 400
  let mp := if m > 2 then m - 3 else m + 9
  let doy := (153 * mp + 2) / 5 + (d - 1)
  let doe := yoe * 365 + yoe / 4 - yoe / 100 + doy
  era * 146097 + doe

/-- Inverse of `toDayNumber`: the civil date `(y, m, d)` of a day number. -/
def civilFromDays (z : Nat) : Nat × Nat × Nat :=
  let era := z / 146097
  let doe := z % 146097
  let yoe := (doe - doe / 1460 + doe / 36524 - doe / 146097) / 365
  let doy := doe - (365 * yoe + yoe / 4 - yoe / 100)
  let mp := (5 * doy + 2) / 153
  let d := doy - (153 * mp + 2) / 5 + 1
  let m := if mp < 10 then mp + 3 else mp - 9
  (if m ≤ 2 then yoe + era * 400 + 1 else yoe + era * 400, m, d)

/-- Zero-pad a number below 100 to two digits, as `"%m"`/`"%d"` formatting does. -/
def pad2 (n : Nat) : String :=
  if n < 10 then "0" ++ toString n else toString n

/-- Render a day number as the ISO `YYYY-MM-DD` string Python's
`date.strftime("%Y-%m-%d")` produces. -/
def formatDate (z : Nat) : String :=
  let c := civilFromDays z
  toString c.1 ++ "-" ++ pad2 c.2.1 ++ "-" ++ pad2 c.2.2

/-- Python's `date.weekday()`: 0 = Monday … 6 = Sunday.  Day number 0
(0000-03-01) was a Wednesday, hence the offset 2. -/
def pyWeekday (n : Nat) : Nat := (n + 2) % 7

/-- SQLite's day-of-week (`%w`): 0 = Sunday … 6 = Saturday. -/
def sqliteWeekday (n : Nat) : Nat := (n + 3) % 7

/-- SQLite's `date(d, 'weekday 0', '-6 days')`: advance `d` to the next
Sunday (staying put if `d` is a Sunday), then step back six days.  This is
the week-start ("most recent Monday") expression used by the
responsibility-resolution query. -/
def mostRecentMonday (n : Nat) : Nat :=
  (n + (7 - sqliteWeekday n) % 7) - 6

/-- `app.get_week_dates`: Monday–Friday of the week containing the
reference date, obtained by subtracting `reference_date.weekday()`. -/
def get_week_dates (reference_date : Nat) : List Nat :=
  let monday := reference_date - pyWeekday reference_date
  (List.range 5).map (fun i => monday + i)

/-! ## Table rows (schema from `database.init_db`) -/

/-- Row of the `teams` table. -/
structure TeamRow where
  id : Nat
  name : String
  description : String
  color : String
deriving DecidableEq, Repr

/-- Row of the `roles` table (`team_id` is nullable). -/
structure RoleRow where
  id : Nat
  name : String
  color : String
  team_id : Option Nat
deriving DecidableEq, Repr

/-- Row of the `team_members` table (`role_id`, `team_id`, `shift_id`
nullable; `active` defaults to 1). -/
structure MemberRow where
  id : Nat
  name : String
  role_id : Option Nat
  team_id : Option Nat
  shift_id : Option Nat
  active : Bool
deriving DecidableEq, Repr

/-- Row of the `shifts` table; times are `HH:MM` strings. -/
structure ShiftRow where
  id : Nat
  name : String
  start_time : String
  end_time : String
deriving DecidableEq, Repr

/-- Row of the `responsibilities` table. -/
structure ResponsibilityRow where
  id : Nat
  name : String
  color : String
  description : String
deriving DecidableEq, Repr

/-- Row of the `weekly_responsibilities` table, UNIQUE on
`(week_start_date, member_id)`; `responsibility_id` is nullable. -/
structure WeeklyResponsibilityRow where
  id : Nat
  week_start_date : Nat
  member_id : Nat
  responsibility_id : Option Nat
deriving DecidableEq, Repr

/-- Row of the `schedules` table, UNIQUE on `(date, shift_id, member_id)`. -/
structure ScheduleRow where
  id : Nat
  date : Nat
  shift_id : Nat
  member_id : Nat
deriving DecidableEq, Repr

/-- Row of the `absences` table; the range `[start_date, end_date]` is
inclusive. -/
structure AbsenceRow where
  id : Nat
  member_id : Nat
  start_date : Nat
  end_date : Nat
  reason : String
deriving DecidableEq, Repr

/-- The whole store: one list of rows per table, plus the AUTOINCREMENT
counters of the tables the modelled operations insert into. -/
structure DB where
  teams : List TeamRow
  roles : List RoleRow
  team_members : List MemberRow
  shifts : List ShiftRow
  responsibilities : List ResponsibilityRow
  weekly_responsibilities : List WeeklyResponsibilityRow
  schedules : List ScheduleRow
  absences : List AbsenceRow
  next_schedule_id : Nat
  next_wr_id : Nat
deriving DecidableEq, Repr

/-! ## Entity deletes (`database.delete_*`)

Each is a bare `DELETE FROM <table> WHERE id = ?`.  The connection never
issues `PRAGMA foreign_keys = ON`, so SQLite does not enforce the declared
FOREIGN KEY constraints and the deletes always succeed. -/

/-- `database.delete_team`. -/
def delete_team (db : DB) (team_id : Nat) : DB :=
  { db with teams := db.teams.filter (fun t => t.id != team_id) }

/-- `database.delete_role`. -/
def delete_role (db : DB) (role_id : Nat) : DB :=
  { db with roles := db.roles.filter (fun r => r.id != role_id) }

/-- `database.delete_team_member`. -/
def delete_team_member (db : DB) (member_id : Nat) : DB :=
  { db with team_members := db.team_members.filter (fun m => m.id != member_id) }

/-- `database.delete_responsibility`. -/
def delete_responsibility (db : DB) (resp_id : Nat) : DB :=
  { db with responsibilities := db.responsibilities.filter (fun r => r.id != resp_id) }

/-- `database.delete_schedule`. -/
def delete_schedule (db : DB) (schedule_id : Nat) : DB :=
  { db with schedules := db.schedules.filter (fun s => s.id != schedule_id) }

/-- `database.delete_absence`. -/
def delete_absence (db : DB) (absence_id : Nat) : DB :=
  { db with absences := db.absences.filter (fun a => a.id != absence_id) }

/-- Name comparison used by `ORDER BY name`. -/
def teamNameLE (a b : TeamRow) : Prop := a.name ≤ b.name

instance : DecidableRel teamNameLE := fun a b =>
  inferInstanceAs (Decidable (a.name ≤ b.name))

/-- `database.get_all_teams`: `SELECT * FROM teams ORDER BY name`. -/
def get_all_teams (db : DB) : List TeamRow :=
  List.insertionSort teamNameLE db.teams

/-! ## Schedules (`database.add_schedule` and helpers) -/

/-- Does a row with the given `(date, shift_id, member_id)` triple exist?
This is what the UNIQUE constraint on `schedules` checks on insertion. -/
def hasScheduleTriple (rows : List ScheduleRow) (d sid mid : Nat) : Bool :=
  rows.any (fun r => r.date == d && r.shift_id == sid && r.member_id == mid)

/-- Number of rows carrying a given `(date, shift_id, member_id)` triple. -/
def scheduleCount (rows : List ScheduleRow) (d sid mid : Nat) : Nat :=
  (rows.filter (fun r => r.date == d && r.shift_id == sid && r.member_id == mid)).length

/-- `database.add_schedule`: insert, or raise
`ValueError("This member is already scheduled for this shift on this date")`
when the UNIQUE constraint fires.  Returns the new row id (`lastrowid`). -/
def add_schedule (db : DB) (date_str : Nat) (shift_id member_id : Nat) :
    Except String (DB × Nat) :=
  if hasScheduleTriple db.schedules date_str shift_id member_id then
    .error "This member is already scheduled for this shift on this date"
  else
    .ok ({ db with
            schedules := db.schedules ++
              [{ id := db.next_schedule_id, date := date_str,
                 shift_id := shift_id, member_id := member_id }],
            next_schedule_id := db.next_schedule_id + 1 },
         db.next_schedule_id)

/-! ## Bulk auto-population (`database.auto_populate_schedules_for_date_range`) -/

/-- The absences preloaded by the population query:
`WHERE start_date <= end AND end_date >= start`. -/
def overlappingAbsences (absences : List AbsenceRow) (start_date end_date : Nat) :
    List AbsenceRow :=
  absences.filter (fun a =>
    decide (a.start_date ≤ end_date) && decide (start_date ≤ a.end_date))

/-- The `absence_map[member_id]` day list: every absence row of the member
expanded into its inclusive `start..end` day range. -/
def absentDayList (absences : List AbsenceRow) (mid : Nat) : List Nat :=
  (absences.filter (fun a => a.member_id == mid)).flatMap
    (fun a => (List.range (a.end_date + 1 - a.start_date)).map (fun i => a.start_date + i))

/-- The population loop's absence test:
`member_id in absence_map and current_date in absence_map[member_id]`. -/
def memberAbsentOn (absences : List AbsenceRow) (mid d : Nat) : Bool :=
  (absentDayList absences mid).contains d

/-- One `INSERT INTO schedules` attempt inside the population loop: skipped
(second component `false`) when the UNIQUE constraint would fire. -/
def tryInsertSchedule (db : DB) (d sid mid : Nat) : DB × Bool :=
  if hasScheduleTriple db.schedules d sid mid then (db, false)
  else
    ({ db with
        schedules := db.schedules ++
          [{ id := db.next_schedule_id, date := d, shift_id := sid, member_id := mid }],
        next_schedule_id := db.next_schedule_id + 1 },
     true)

/-- Inner loop of the population algorithm: one pass over
`members_with_shifts` for a fixed weekday date `d`, counting the rows
actually inserted. -/
def populateDay (absences : List AbsenceRow) (d : Nat) :
    DB → List MemberRow → DB × Nat
  | db, [] => (db, 0)
  | db, m :: rest =>
    let step : DB × Nat :=
      match m.shift_id with
      | none => (db, 0)
      | some sid =>
        if memberAbsentOn absences m.id d then (db, 0)
        else
          let ins := tryInsertSchedule db d sid m.id
          (ins.1, if ins.2 then 1 else 0)
    let restRes := populateDay absences d step.1 rest
    (restRes.1, step.2 + restRes.2)

/-- Outer loop of the population algorithm: walk the calendar dates,
processing only those whose weekday is Monday–Friday. -/
def populateDates (absences : List AbsenceRow) (members : List MemberRow) :
    DB → List Nat → DB × Nat
  | db, [] => (db, 0)
  | db, d :: rest =>
    let step : DB × Nat :=
      if pyWeekday d < 5 then populateDay absences d db members else (db, 0)
    let restRes := populateDates absences members step.1 rest
    (restRes.1, step.2 + restRes.2)

/-- The calendar dates visited by `while current_date <= end_dt`. -/
def schedDates (start_date end_date : Nat) : List Nat :=
  (List.range (end_date + 1 - start_date)).map (fun i => start_date + i)

/-- `database.auto_populate_schedules_for_date_range`: bulk-populate the
range from each active member's default shift, skipping weekends, absent
members and already-existing rows; returns the new store and the number of
rows actually inserted. -/
def auto_populate_schedules_for_date_range (db : DB) (start_date end_date : Nat) :
    DB × Nat :=
  let members_with_shifts :=
    db.team_members.filter (fun m => m.active && m.shift_id.isSome)
  let absences := overlappingAbsences db.absences start_date end_date
  populateDates absences members_with_shifts db (schedDates start_date end_date)

/-! ## Weekly responsibilities (`database.set_weekly_responsibility`) -/

/-- The `(week_start_date, member_id)` key test of the UNIQUE constraint. -/
def wrKeyMatches (w : WeeklyResponsibilityRow) (ws mid : Nat) : Bool :=
  w.week_start_date == ws && w.member_id == mid

/-- First row stored for a `(week_start_date, member_id)` key, if any. -/
def wrLookup (db : DB) (ws mid : Nat) : Option WeeklyResponsibilityRow :=
  db.weekly_responsibilities.find? (fun w => wrKeyMatches w ws mid)

/-- `database.set_weekly_responsibility`: `INSERT ... ON CONFLICT(week_start_date,
member_id) DO UPDATE SET responsibility_id = EXCLUDED.responsibility_id`. -/
def set_weekly_responsibility (db : DB) (week_start_date member_id : Nat)
    (responsibility_id : Option Nat) : DB :=
  if db.weekly_responsibilities.any (fun w => wrKeyMatches w week_start_date member_id) then
    { db with weekly_responsibilities :=
        db.weekly_responsibilities.map (fun w =>
          if wrKeyMatches w week_start_date member_id then
            { w with responsibility_id := responsibility_id }
          else w) }
  else
    { db with
        weekly_responsibilities := db.weekly_responsibilities ++
          [{ id := db.next_wr_id, week_start_date := week_start_date,
             member_id := member_id, responsibility_id := responsibility_id }],
        next_wr_id := db.next_wr_id + 1 }

/-! ## Schedule query engine (`database.get_schedules_for_date_range`) -/

/-- One row of the range query's result set. -/
structure ScheduleView where
  id : Nat
  date : Nat
  shift_id : Nat
  member_id : Nat
  member_name : String
  role_name : Option String
  shift_name : String
  start_time : String
  end_time : String
  responsibility_name : Option String
  responsibility_color : Option String
deriving DecidableEq, Repr

/-- The query's responsibility-resolution joins: `LEFT JOIN
weekly_responsibilities ON member AND week_start_date =
date(s.date,'weekday 0','-6 days')`, then `LEFT JOIN responsibilities`. -/
def resolveResponsibility (db : DB) (d mid : Nat) : Option ResponsibilityRow :=
  match db.weekly_responsibilities.find? (fun w =>
      w.member_id == mid && w.week_start_date == mostRecentMonday d) with
  | none => none
  | some w =>
    match w.responsibility_id with
    | none => none
    | some respId => db.responsibilities.find? (fun rp => rp.id == respId)

/-- Assemble the view of one schedule row: inner `JOIN team_members` and
`JOIN shifts` (a row whose member or shift is missing is dropped), `LEFT
JOIN roles`, and the responsibility resolution. -/
def mkScheduleView (db : DB) (r : ScheduleRow) : Option ScheduleView :=
  match db.team_members.find? (fun m => m.id == r.member_id) with
  | none => none
  | some tm =>
    match db.shifts.find? (fun sh => sh.id == r.shift_id) with
    | none => none
    | some sh =>
      let role : Option RoleRow :=
        match tm.role_id with
        | none => none
        | some rid => db.roles.find? (fun ro => ro.id == rid)
      let resp := resolveResponsibility db r.date r.member_id
      some { id := r.id, date := r.date, shift_id := r.shift_id,
             member_id := r.member_id, member_name := tm.name,
             role_name := role.map (fun ro => ro.name),
             shift_name := sh.name, start_time := sh.start_time,
             end_time := sh.end_time,
             responsibility_name := resp.map (fun rp => rp.name),
             responsibility_color := resp.map (fun rp => rp.color) }

/-- The `ORDER BY s.date, sh.start_time, tm.name` ordering: date ascending,
then shift start time ascending (TEXT order), then member name ascending. -/
def viewLE (a b : ScheduleView) : Prop :=
  a.date < b.date ∨
    (a.date = b.date ∧
      (a.start_time < b.start_time ∨
        (a.start_time = b.start_time ∧ a.member_name ≤ b.member_name)))

instance : DecidableRel viewLE := fun a b => by
  unfold viewLE; infer_instance

/-- `database.get_schedules_for_date_range`: the views of all schedule rows
with `date BETWEEN start AND end` (both endpoints included), sorted by the
three-key ordering. -/
def get_schedules_for_date_range (db : DB) (start_date end_date : Nat) :
    List ScheduleView :=
  List.insertionSort viewLE
    ((db.schedules.filter (fun r =>
        decide (start_date ≤ r.date) && decide (r.date ≤ end_date))).filterMap
      (mkScheduleView db))

/-- `database.get_schedules_for_date`: single-day specialization. -/
def get_schedules_for_date (db : DB) (date_str : Nat) : List ScheduleView :=
  get_schedules_for_date_range db date_str date_str

/-! ## Conflict detector (`app.show_dashboard`, warning block) -/

/-- The dashboard's conflict scan: flag each loaded schedule row whose date
falls inside the expanded day set of an absence of the same member, and
emit one `"<member> on <date>"` string per flagged row, in schedule order.
The guard mirrors `if all_schedules and all_absences:`. -/
def detectConflicts (schedules : List ScheduleView) (absences : List AbsenceRow) :
    List String :=
  if schedules.isEmpty || absences.isEmpty then []
  else
    (schedules.filter (fun s => memberAbsentOn absences s.member_id s.date)).map
      (fun s => s.member_name ++ " on " ++ formatDate s.date)

/-- A small fully-populated store used to instantiate hypotheses of the
range-query and delete theorems on concrete data. -/
def opsDB : DB :=
  { teams := [{ id := 1, name := "Ops", description := "", color := "#ff0000" }]
    roles := [{ id := 1, name := "Lead", color := "#00ff00", team_id := some 1 }]
    team_members := [{ id := 1, name := "Alice", role_id := some 1, team_id := some 1,
                       shift_id := some 1, active := true }]
    shifts := [{ id := 1, name := "Early", start_time := "07:00", end_time := "15:00" }]
    responsibilities := [{ id := 1, name := "On-call", color := "#0000ff", description := "" }]
    weekly_responsibilities := []
    schedules := [{ id := 1, date := 739345, shift_id := 1, member_id := 1 }]
    absences := []
    next_schedule_id := 2
    next_wr_id := 1 }

/-- Schedule view used in the concrete conflict-detection scenario:
member M = "Alice" (id 1) scheduled on day `d` for shift "Early". -/
def c9schedule (d : Nat) : ScheduleView :=
  { id := 1, date := d, shift_id := 1, member_id := 1, member_name := "Alice",
    role_name := none, shift_name := "Early", start_time := "07:00",
    end_time := "15:00", responsibility_name := none, responsibility_color := none }

/-- Absence of member M covering 2024-06-03 .. 2024-06-05 (day numbers
739345 .. 739347). -/
def c9absence : AbsenceRow :=
  { id := 1, member_id := 1, start_date := 739345, end_date := 739347,
    reason := "Holiday" }

/-- The end-to-end scenario store: one team "Ops", one member "Alice"
(active, default shift "Early" 07:00–15:00, id 1), no absences and no
schedules yet. -/
def seedDB : DB :=
  { teams := [{ id := 1, name := "Ops", description := "", color := "#ff0000" }]
    roles := []
    team_members := [{ id := 1, name := "Alice", role_id := none, team_id := some 1,
                       shift_id := some 1, active := true }]
    shifts := [{ id := 1, name := "Early", start_time := "07:00", end_time := "15:00" }]
    responsibilities := []
    weekly_responsibilities := []
    schedules := []
    absences := []
    next_schedule_id := 1
    next_wr_id := 1 }

instance : IsTotal ScheduleView viewLE := by
  constructor
  intro a b
  unfold viewLE
  rcases Nat.lt_trichotomy a.date b.date with h | h | h
  · exact Or.inl (Or.inl h)
  · rcases lt_trichotomy a.start_time b.start_time with h2 | h2 | h2
    · exact Or.inl (Or.inr ⟨h, Or.inl h2⟩)
    · rcases le_total a.member_name b.member_name with h3 | h3
      · exact Or.inl (Or.inr ⟨h, Or.inr ⟨h2, h3⟩⟩)
      · exact Or.inr (Or.inr ⟨h.symm, Or.inr ⟨h2.symm, h3⟩⟩)
    · exact Or.inr (Or.inr ⟨h.symm, Or.inl h2⟩)
  · exact Or.inr (Or.inl h)

instance : IsTrans ScheduleView viewLE := by
  constructor
  intro a b c hab hbc
  unfold viewLE at hab hbc ⊢
  rcases hab with h1 | ⟨e1, h1⟩
  · rcases hbc with h2 | ⟨e2, h2⟩
    · exact Or.inl (h1.trans h2)
    · exact Or.inl (e2 ▸ h1)
  · rcases hbc with h2 | ⟨e2, h2⟩
    · exact Or.inl (e1 ▸ h2)
    · refine Or.inr ⟨e1.trans e2, ?_⟩
      rcases h1 with h1 | ⟨f1, h1⟩
      · rcases h2 with h2 | ⟨f2, h2⟩
        · exact Or.inl (h1.trans h2)
        · exact Or.inl (f2 ▸ h1)
      · rcases h2 with h2 | ⟨f2, h2⟩
        · exact Or.inl (f1 ▸ h2)
        · exact Or.inr ⟨f1.trans f2, h1.trans h2⟩

/-! ## Statement-side notions for the upsert claim -/

/-- Keys pairwise distinct: at most one stored row per
`(week_start_date, member_id)` pair. -/
def wrUnique (db : DB) : Prop :=
  db.weekly_responsibilities.Pairwise (fun w1 w2 =>
    (w1.week_start_date, w1.member_id) ≠ (w2.week_start_date, w2.member_id))

/-- Run a sequence of `set_weekly_responsibility` calls
`(weekStart, member, responsibilityOrNone)` left to right. -/
def applyWRCalls (db : DB) : List (Nat × Nat × Option Nat) → DB
  | [] => db
  | c :: rest => applyWRCalls (set_weekly_responsibility db c.1 c.2.1 c.2.2) rest

/-- The responsibility value passed by the most recent call for a given
`(weekStart, member)` pair, if any call for that pair occurs. -/
def lastValueFor : List (Nat × Nat × Option Nat) → Nat → Nat → Option (Option Nat)
  | [], _, _ => none
  | c :: rest, ws, mid =>
    match lastValueFor rest ws mid with
    | some v => some v
    | none => if c.1 == ws && c.2.1 == mid then some c.2.2 else none

/-! ## Helper lemmas -/

theorem hasScheduleTriple_append (l1 l2 : List ScheduleRow) (d sid mid : Nat) :
    hasScheduleTriple (l1 ++ l2) d sid mid =
      (hasScheduleTriple l1 d sid mid || hasScheduleTriple l2 d sid mid) := by
  simp [hasScheduleTriple, List.any_append]

theorem scheduleCount_append (l1 l2 : List ScheduleRow) (d sid mid : Nat) :
    scheduleCount (l1 ++ l2) d sid mid =
      scheduleCount l1 d sid mid + scheduleCount l2 d sid mid := by
  simp [scheduleCount, List.filter_append]

theorem scheduleCount_eq_zero (rows : List ScheduleRow) (d sid mid : Nat)
    (h : hasScheduleTriple rows d sid mid = false) :
    scheduleCount rows d sid mid = 0 := by
  unfold hasScheduleTriple at h
  unfold scheduleCount
  rw [List.length_eq_zero, List.filter_eq_nil_iff]
  intro a ha hpa
  rw [List.any_eq_false] at h
  exact absurd hpa (h a ha)

theorem scheduleCount_singleton (r : ScheduleRow) (d sid mid : Nat) :
    scheduleCount [r] d sid mid =
      if r.date == d && r.shift_id == sid && r.member_id == mid then 1 else 0 := by
  unfold scheduleCount
  rcases h : (r.date == d && r.shift_id == sid && r.member_id == mid) with _ | _
  · simp [List.filter_singleton, h]
  · simp [List.filter_singleton, h]

/-! ## C4: week-boundary consistency -/

/-- C4.  For every calendar date `d`, the first element of
`get_week_dates d` (computed by subtracting `d`'s Python weekday index)
equals `mostRecentMonday d`, the SQL expression
`date(date,'weekday 0','-6 days')` used by responsibility resolution —
including when `d` is itself a Monday and when `d` is a Saturday or
Sunday. -/
theorem claim_C4_week_start_consistency (d : Nat) :
    (get_week_dates d).head? = some (mostRecentMonday d) := by
  have h : (get_week_dates d).head? = some (d - pyWeekday d + 0) := rfl
  rw [h]
  congr 1
  unfold mostRecentMonday sqliteWeekday pyWeekday
  omega

/-! ## C10: deleting a nonexistent id is a silent no-op -/

theorem filter_ne_id_eq_self {α : Type} (l : List α) (f : α → Nat) (i : Nat)
    (h : ∀ x ∈ l, f x ≠ i) : l.filter (fun x => f x != i) = l := by
  rw [List.filter_eq_self]
  intro x hx
  simpa using h x hx

/-- C10.  For every id not present in the corresponding table, each delete
operation (`delete_team`, `delete_role`, `delete_team_member`,
`delete_responsibility`, `delete_schedule`, `delete_absence`) completes
without any error — the functions are total — and returns the store
entirely unchanged: a nonexistent-id delete is a silent no-op, not a
NotFoundError. -/
theorem claim_C10_delete_nonexistent_noop (db : DB)
    (tid rid mid pid sid aid : Nat) :
    ((∀ t ∈ db.teams, t.id ≠ tid) → delete_team db tid = db) ∧
    ((∀ r ∈ db.roles, r.id ≠ rid) → delete_role db rid = db) ∧
    ((∀ m ∈ db.team_members, m.id ≠ mid) → delete_team_member db mid = db) ∧
    ((∀ r ∈ db.responsibilities, r.id ≠ pid) → delete_responsibility db pid = db) ∧
    ((∀ s ∈ db.schedules, s.id ≠ sid) → delete_schedule db sid = db) ∧
    ((∀ a ∈ db.absences, a.id ≠ aid) → delete_absence db aid = db) := by
  refine ⟨fun h => ?_, fun h => ?_, fun h => ?_, fun h => ?_, fun h => ?_, fun h => ?_⟩
  · unfold delete_team
    rw [filter_ne_id_eq_self db.teams (fun t => t.id) tid h]
  · unfold delete_role
    rw [filter_ne_id_eq_self db.roles (fun r => r.id) rid h]
  · unfold delete_team_member
    rw [filter_ne_id_eq_self db.team_members (fun m => m.id) mid h]
  · unfold delete_responsibility
    rw [filter_ne_id_eq_self db.responsibilities (fun r => r.id) pid h]
  · unfold delete_schedule
    rw [filter_ne_id_eq_self db.schedules (fun s => s.id) sid h]
  · unfold delete_absence
    rw [filter_ne_id_eq_self db.absences (fun a => a.id) aid h]

/-- Witness for C10: on `opsDB`, deleting id 99 (present nowhere) returns
the store unchanged for every delete operation. -/
theorem claim_C10_witness :
    delete_team opsDB 99 = opsDB ∧ delete_role opsDB 99 = opsDB ∧
    delete_team_member opsDB 99 = opsDB ∧ delete_responsibility opsDB 99 = opsDB ∧
    delete_schedule opsDB 99 = opsDB ∧ delete_absence opsDB 99 = opsDB := by
  obtain ⟨h1, h2, h3, h4, h5, h6⟩ :=
    claim_C10_delete_nonexistent_noop opsDB 99 99 99 99 99 99
  exact ⟨h1 (by decide), h2 (by decide), h3 (by decide),
         h4 (by decide), h5 (by decide), h6 (by decide)⟩

/-! ## C5: schedule insertion and the "already scheduled" signal -/

/-- C5.  For every `(date, shift, member)` triple not already present,
`add_schedule` succeeds, inserting exactly one row (with the fresh
AUTOINCREMENT id) so that exactly one row for the triple is stored;
submitting the identical triple again fails with the caller-visible
`"This member is already scheduled for this shift on this date"` signal —
the translated `ValueError`, not a raw `sqlite3.IntegrityError` — and,
since the failing call returns no new store, exactly one row for the
triple remains. -/
theorem claim_C5_add_schedule_unique (db : DB) (d sid mid : Nat)
    (h : hasScheduleTriple db.schedules d sid mid = false) :
    ∃ db1, add_schedule db d sid mid = .ok (db1, db.next_schedule_id) ∧
      db1.schedules = db.schedules ++
        [{ id := db.next_schedule_id, date := d, shift_id := sid, member_id := mid }] ∧
      scheduleCount db1.schedules d sid mid = 1 ∧
      add_schedule db1 d sid mid =
        .error "This member is already scheduled for this shift on this date" := by
  refine ⟨{ db with
             schedules := db.schedules ++
               [{ id := db.next_schedule_id, date := d, shift_id := sid, member_id := mid }],
             next_schedule_id := db.next_schedule_id + 1 },
          by simp [add_schedule, h], rfl, ?_, ?_⟩
  · rw [scheduleCount_append, scheduleCount_eq_zero db.schedules d sid mid h,
        scheduleCount_singleton]
    simp
  · have hmem : hasScheduleTriple
        (db.schedules ++
          [{ id := db.next_schedule_id, date := d, shift_id := sid, member_id := mid }])
        d sid mid = true := by
      rw [hasScheduleTriple_append]
      simp [hasScheduleTriple]
    simp [add_schedule, hmem]

/-- Witness for C5 at a concrete input: the triple
`(2024-06-04, shift 1, member 1)` is absent from `opsDB`, adding it
succeeds and re-adding it yields the "already scheduled" error. -/
theorem claim_C5_witness :
    hasScheduleTriple opsDB.schedules 739346 1 1 = false ∧
    ∃ db1, add_schedule opsDB 739346 1 1 = .ok (db1, opsDB.next_schedule_id) ∧
      db1.schedules = opsDB.schedules ++
        [{ id := opsDB.next_schedule_id, date := 739346, shift_id := 1, member_id := 1 }] ∧
      scheduleCount db1.schedules 739346 1 1 = 1 ∧
      add_schedule db1 739346 1 1 =
        .error "This member is already scheduled for this shift on this date" :=
  ⟨by decide, claim_C5_add_schedule_unique opsDB 739346 1 1 (by decide)⟩

/-! ## C9: the dashboard conflict detector -/

theorem memberAbsentOn_eq_any (absences : List AbsenceRow) (mid d : Nat) :
    memberAbsentOn absences mid d =
      absences.any (fun a => a.member_id == mid &&
        (decide (a.start_date ≤ d) && decide (d ≤ a.end_date))) := by
  rw [Bool.eq_iff_iff]
  unfold memberAbsentOn absentDayList
  simp only [List.contains_eq_any_beq, List.any_eq_true, List.mem_flatMap,
    List.mem_filter, List.mem_map, List.mem_range, Bool.and_eq_true, beq_iff_eq,
    decide_eq_true_eq]
  constructor
  · rintro ⟨x, ⟨a, ⟨ha, hamid⟩, i, hi, hx⟩, hdx⟩
    exact ⟨a, ha, hamid, by omega, by omega⟩
  · rintro ⟨a, ha, hmid, h1, h2⟩
    exact ⟨d, ⟨a, ⟨ha, hmid⟩, d - a.start_date, by omega, by omega⟩, rfl⟩

/-- C9.  The conflict detector, as a pure function over loaded schedule
views and absence records, flags a schedule row exactly when its date lies
in the inclusive day set of some absence of the same member, emitting one
`"<member> on <date>"` string per flagged row in schedule order; for an
absence of member M covering 2024-06-03..2024-06-05, a schedule for M on
2024-06-04 yields exactly `["Alice on 2024-06-04"]` and a schedule for M
on 2024-06-06 yields no conflict. -/
theorem claim_C9_conflict_detector :
    (∀ (schedules : List ScheduleView) (absences : List AbsenceRow),
      detectConflicts schedules absences =
        (schedules.filter (fun s => absences.any (fun a =>
            a.member_id == s.member_id &&
            (decide (a.start_date ≤ s.date) && decide (s.date ≤ a.end_date))))).map
          (fun s => s.member_name ++ " on " ++ formatDate s.date)) ∧
    detectConflicts [c9schedule 739346] [c9absence] = ["Alice on 2024-06-04"] ∧
    detectConflicts [c9schedule 739348] [c9absence] = [] := by
  refine ⟨fun schedules absences => ?_, by decide, by decide⟩
  unfold detectConflicts
  by_cases hs : schedules.isEmpty
  · rw [List.isEmpty_iff.mp hs]
    simp
  · by_cases ha : absences.isEmpty
    · rw [List.isEmpty_iff.mp ha]
      simp [hs]
    · simp only [hs, ha, Bool.or_false, if_neg Bool.false_ne_true,
        memberAbsentOn_eq_any]

/-! ## C6: range filtering and three-key ordering of the schedule query -/

/-- All row-identifying and responsibility fields of a produced view come
from the underlying schedule row and its resolution. -/
theorem mkScheduleView_spec (db : DB) (r : ScheduleRow) (v : ScheduleView)
    (h : mkScheduleView db r = some v) :
    v.id = r.id ∧ v.date = r.date ∧ v.shift_id = r.shift_id ∧
    v.member_id = r.member_id ∧
    v.responsibility_name =
      (resolveResponsibility db r.date r.member_id).map (fun rp => rp.name) ∧
    v.responsibility_color =
      (resolveResponsibility db r.date r.member_id).map (fun rp => rp.color) := by
  unfold mkScheduleView at h
  rcases hfm : db.team_members.find? (fun m => m.id == r.member_id) with _ | tm
  · rw [hfm] at h
    exact absurd h (by simp)
  · rw [hfm] at h
    rcases hfs : db.shifts.find? (fun sh => sh.id == r.shift_id) with _ | sh
    · rw [hfs] at h
      exact absurd h (by simp)
    · rw [hfs] at h
      simp only [Option.some.injEq] at h
      subst h
      exact ⟨rfl, rfl, rfl, rfl, rfl, rfl⟩

/-- A filterMap whose function succeeds on every element preserves length. -/
theorem length_filterMap_of_isSome {α β : Type} (f : α → Option β) (l : List α)
    (h : ∀ x ∈ l, (f x).isSome = true) : (l.filterMap f).length = l.length := by
  induction l with
  | nil => rfl
  | cons a t ih =>
    rcases hfa : f a with _ | b
    · exact absurd (h a (by simp)) (by simp [hfa])
    · rw [List.filterMap_cons_some hfa]
      simp only [List.length_cons]
      rw [ih (fun x hx => h x (by simp [hx]))]

/-- The view of a schedule row exists whenever its member and shift rows
do (the two inner joins succeed). -/
theorem mkScheduleView_isSome (db : DB) (r : ScheduleRow)
    (hm : (db.team_members.any (fun m => m.id == r.member_id)) = true)
    (hs : (db.shifts.any (fun sh => sh.id == r.shift_id)) = true) :
    (mkScheduleView db r).isSome = true := by
  unfold mkScheduleView
  have hm' : (db.team_members.find? (fun m => m.id == r.member_id)).isSome := by
    rw [List.find?_isSome]
    simpa [List.any_eq_true] using hm
  have hs' : (db.shifts.find? (fun sh => sh.id == r.shift_id)).isSome := by
    rw [List.find?_isSome]
    simpa [List.any_eq_true] using hs
  rcases hfm : db.team_members.find? (fun m => m.id == r.member_id) with _ | tm
  · rw [hfm] at hm'
    exact absurd hm' (by simp)
  · rcases hfs : db.shifts.find? (fun sh => sh.id == r.shift_id) with _ | sh
    · rw [hfs] at hs'
      exact absurd hs' (by simp)
    · rw [hfm, hfs]
      rfl

/-- C6.  `get_schedules_for_date_range start end` returns views exactly for
the schedule rows whose date lies in `[start, end]` inclusive (both
endpoints included): every returned view comes from such a row, and —
whenever the rows' member and shift references resolve, as the inner joins
of the query require — every such row yields exactly one view, so the
result has one view per in-range row; and the returned list is sorted by
date ascending, then shift start time ascending, then member name
ascending (`viewLE`). -/
theorem claim_C6_range_query (db : DB) (s e : Nat) :
    List.Sorted viewLE (get_schedules_for_date_range db s e) ∧
    (∀ v ∈ get_schedules_for_date_range db s e,
      ∃ r ∈ db.schedules, s ≤ r.date ∧ r.date ≤ e ∧
        mkScheduleView db r = some v ∧ v.id = r.id) ∧
    ((∀ r ∈ db.schedules,
        (db.team_members.any (fun m => m.id == r.member_id)) = true ∧
        (db.shifts.any (fun sh => sh.id == r.shift_id)) = true) →
      (∀ r ∈ db.schedules, s ≤ r.date → r.date ≤ e →
        ∃ v ∈ get_schedules_for_date_range db s e,
          mkScheduleView db r = some v ∧ v.id = r.id) ∧
      (get_schedules_for_date_range db s e).length =
        (db.schedules.filter (fun r =>
          decide (s ≤ r.date) && decide (r.date ≤ e))).length) := by
  have hperm := List.perm_insertionSort viewLE
    ((db.schedules.filter (fun r =>
        decide (s ≤ r.date) && decide (r.date ≤ e))).filterMap (mkScheduleView db))
  refine ⟨List.sorted_insertionSort viewLE _, ?_, ?_⟩
  · intro v hv
    have hv' : v ∈ (db.schedules.filter (fun r =>
        decide (s ≤ r.date) && decide (r.date ≤ e))).filterMap (mkScheduleView db) :=
      hperm.subset hv
    obtain ⟨r, hrf, hfr⟩ := List.mem_filterMap.mp hv'
    obtain ⟨hr, hpred⟩ := List.mem_filter.mp hrf
    simp only [Bool.and_eq_true, decide_eq_true_eq] at hpred
    exact ⟨r, hr, hpred.1, hpred.2, hfr, (mkScheduleView_spec db r v hfr).1⟩
  · intro hres
    constructor
    · intro r hr h1 h2
      have hsome := mkScheduleView_isSome db r (hres r hr).1 (hres r hr).2
      obtain ⟨v, hv⟩ := Option.isSome_iff_exists.mp hsome
      refine ⟨v, ?_, hv, (mkScheduleView_spec db r v hv).1⟩
      apply hperm.symm.subset
      exact List.mem_filterMap.mpr
        ⟨r, List.mem_filter.mpr ⟨hr, by simp [h1, h2]⟩, hv⟩
    · have hlen : (get_schedules_for_date_range db s e).length =
          ((db.schedules.filter (fun r =>
            decide (s ≤ r.date) && decide (r.date ≤ e))).filterMap
              (mkScheduleView db)).length := hperm.length_eq
      rw [hlen]
      apply length_filterMap_of_isSome
      intro r hrf
      have hr := (List.mem_filter.mp hrf).1
      exact mkScheduleView_isSome db r (hres r hr).1 (hres r hr).2

/-- Witness for C6 on `opsDB` (whose single schedule row on 2024-06-03
resolves to member 1 and shift 1): the row yields a view in the
2024-06-03..07 range query. -/
theorem claim_C6_witness :
    ∃ v ∈ get_schedules_for_date_range opsDB 739345 739349,
      mkScheduleView opsDB { id := 1, date := 739345, shift_id := 1, member_id := 1 }
        = some v ∧
      v.id = 1 :=
  ((claim_C6_range_query opsDB 739345 739349).2.2 (by decide)).1
    { id := 1, date := 739345, shift_id := 1, member_id := 1 }
    (by decide) (by decide) (by decide)

/-! ## Lookup lemmas for the weekly-responsibility upsert -/

/-- `find?` ignores a map that neither changes which elements satisfy the
predicate nor the satisfying elements themselves. -/
theorem find?_map_congr {α : Type} (f : α → α) (p : α → Bool)
    (hp : ∀ a, p (f a) = p a) (hfix : ∀ a, p a = true → f a = a) (l : List α) :
    (l.map f).find? p = l.find? p := by
  induction l with
  | nil => rfl
  | cons a t ih =>
    simp only [List.map_cons]
    rcases ha : p a with _ | _
    · rw [List.find?_cons_of_neg _ (by simp [hp, ha]),
          List.find?_cons_of_neg _ (by simp [ha]), ih]
    · rw [List.find?_cons_of_pos _ (by simp [hp, ha]),
          List.find?_cons_of_pos _ (by simp [ha]), hfix a ha]

/-- `find?` ignores an appended element that fails the predicate. -/
theorem find?_append_single {α : Type} (p : α → Bool) (x : α)
    (hx : p x = false) (l : List α) :
    (l ++ [x]).find? p = l.find? p := by
  induction l with
  | nil => simp [List.find?, hx]
  | cons a t ih =>
    rcases ha : p a with _ | _
    · rw [List.cons_append, List.find?_cons_of_neg _ (by simp [ha]),
          List.find?_cons_of_neg _ (by simp [ha]), ih]
    · rw [List.cons_append, List.find?_cons_of_pos _ (by simp [ha]),
          List.find?_cons_of_pos _ (by simp [ha])]

/-- The upsert for week `ws` and member `mid` does not disturb the stored
row looked up under any other `(week, member)` key. -/
theorem wrLookup_set_frame (db : DB) (ws mid : Nat) (rid : Option Nat)
    (ws2 mid2 : Nat) (hne : ws2 ≠ ws ∨ mid2 ≠ mid) :
    wrLookup (set_weekly_responsibility db ws mid rid) ws2 mid2 =
      wrLookup db ws2 mid2 := by
  unfold wrLookup set_weekly_responsibility
  by_cases hany : (db.weekly_responsibilities.any (fun w => wrKeyMatches w ws mid)) = true
  · simp only [hany, if_true]
    apply find?_map_congr
    · intro w
      by_cases hw : wrKeyMatches w ws mid = true
      · rw [if_pos hw]
        rfl
      · rw [if_neg hw]
    · intro w hw
      simp only [wrKeyMatches, Bool.and_eq_true, beq_iff_eq] at hw
      have hkey : wrKeyMatches w ws mid = false := by
        rcases hk : wrKeyMatches w ws mid with _ | _
        · rfl
        · simp only [wrKeyMatches, Bool.and_eq_true, beq_iff_eq] at hk
          rcases hne with h | h
          · exact absurd (hw.1.symm.trans hk.1) h
          · exact absurd (hw.2.symm.trans hk.2) h
      simp [hkey]
  · simp only [hany, if_false]
    apply find?_append_single
    rcases hk : wrKeyMatches
        { id := db.next_wr_id, week_start_date := ws, member_id := mid,
          responsibility_id := rid } ws2 mid2 with _ | _
    · rfl
    · simp only [wrKeyMatches, Bool.and_eq_true, beq_iff_eq] at hk
      rcases hne with h | h
      · exact absurd hk.1.symm h
      · exact absurd hk.2.symm h

/-- Changing the weekly-responsibility assignment for a week `ws` other
than the one a date `d` resolves to leaves the resolution for `d`
unchanged, for every member. -/
theorem resolveResponsibility_set_frame (db : DB) (ws mid : Nat)
    (rid : Option Nat) (d mid2 : Nat) (hne : mostRecentMonday d ≠ ws) :
    resolveResponsibility (set_weekly_responsibility db ws mid rid) d mid2 =
      resolveResponsibility db d mid2 := by
  have hfind : (set_weekly_responsibility db ws mid rid).weekly_responsibilities.find?
      (fun w => w.member_id == mid2 && w.week_start_date == mostRecentMonday d) =
      db.weekly_responsibilities.find?
        (fun w => w.member_id == mid2 && w.week_start_date == mostRecentMonday d) := by
    unfold set_weekly_responsibility
    by_cases hany :
        (db.weekly_responsibilities.any (fun w => wrKeyMatches w ws mid)) = true
    · simp only [hany, if_true]
      apply find?_map_congr
      · intro w
        by_cases hw : wrKeyMatches w ws mid = true
        · rw [if_pos hw]
        · rw [if_neg hw]
      · intro w hw
        simp only [Bool.and_eq_true, beq_iff_eq] at hw
        have hkey : wrKeyMatches w ws mid = false := by
          rcases hk : wrKeyMatches w ws mid with _ | _
          · rfl
          · simp only [wrKeyMatches, Bool.and_eq_true, beq_iff_eq] at hk
            exact absurd (hw.2.symm.trans hk.1) hne
        simp [hkey]
    · simp only [hany, if_false]
      apply find?_append_single
      show (mid == mid2 && ws == mostRecentMonday d) = false
      have hws : (ws == mostRecentMonday d) = false :=
        beq_eq_false_iff_ne.mpr (fun h => hne h.symm)
      simp [hws]
  have hresp : (set_weekly_responsibility db ws mid rid).responsibilities =
      db.responsibilities := by
    unfold set_weekly_responsibility
    by_cases hany :
        (db.weekly_responsibilities.any (fun w => wrKeyMatches w ws mid)) = true <;>
      simp [hany]
  simp only [resolveResponsibility, hfind, hresp]

/-! ## C3: responsibility resolution of the range query -/

/-- C3 (amended).  Every view returned by `get_schedules_for_date_range`
carries exactly the responsibility stored in WeeklyResponsibility for
`(mostRecentMonday(date), member)`: its name and color are the stored
responsibility's, and when no WeeklyResponsibility row exists for that
key the resolution is `none` — a NULL responsibility name and color in
the row, not the literal string "Unassigned" (the downstream
`"Unassigned"` dict-defaults never fire, see the counterexample).
Moreover, changing the assignment for any week other than the one a date
resolves to never alters the resolution for that date, in particular a
later week's change never alters an earlier week of the same member. -/
theorem claim_C3_responsibility_resolution :
    (∀ (db : DB) (s e : Nat), ∀ v ∈ get_schedules_for_date_range db s e,
      v.responsibility_name =
        (resolveResponsibility db v.date v.member_id).map (fun rp => rp.name) ∧
      v.responsibility_color =
        (resolveResponsibility db v.date v.member_id).map (fun rp => rp.color)) ∧
    (∀ (db : DB) (ws mid : Nat) (rid : Option Nat) (d mid2 : Nat),
      mostRecentMonday d ≠ ws →
      resolveResponsibility (set_weekly_responsibility db ws mid rid) d mid2 =
        resolveResponsibility db d mid2) := by
  constructor
  · intro db s e v hv
    have hperm := List.perm_insertionSort viewLE
      ((db.schedules.filter (fun r =>
          decide (s ≤ r.date) && decide (r.date ≤ e))).filterMap (mkScheduleView db))
    obtain ⟨r, _, hfr⟩ := List.mem_filterMap.mp (hperm.subset hv)
    obtain ⟨_, hdate, _, hmid, hname, hcolor⟩ := mkScheduleView_spec db r v hfr
    rw [hname, hcolor, hdate, hmid]
    exact ⟨rfl, rfl⟩
  · exact resolveResponsibility_set_frame

/-- Counterexample to C3 as stated: in `opsDB` no WeeklyResponsibility row
exists for `(2024-06-03, member 1)`, and the view returned for the
schedule row of 2024-06-03 carries responsibility name NULL (`none`) —
not the string `"Unassigned"` the claim asserts. -/
theorem claim_C3_counterexample :
    ((get_schedules_for_date_range opsDB 739345 739345).map
        (fun v => v.responsibility_name)) = [none] ∧
    ((get_schedules_for_date_range opsDB 739345 739345).map
        (fun v => v.responsibility_name)) ≠ [some "Unassigned"] := by
  constructor
  · decide
  · decide

/-- Witness for C3: its resolution clause applied to the concrete view of
`opsDB`'s schedule row, and its frame clause applied to an assignment for
the later week of 2024-06-10 (day 739352), which leaves the resolution of
2024-06-03 (week start 739345) for member 1 untouched. -/
theorem claim_C3_witness :
    ({ id := 1, date := 739345, shift_id := 1, member_id := 1,
       member_name := "Alice", role_name := some "Lead", shift_name := "Early",
       start_time := "07:00", end_time := "15:00", responsibility_name := none,
       responsibility_color := none : ScheduleView }.responsibility_name =
      (resolveResponsibility opsDB 739345 1).map (fun rp => rp.name) ∧
     { id := 1, date := 739345, shift_id := 1, member_id := 1,
       member_name := "Alice", role_name := some "Lead", shift_name := "Early",
       start_time := "07:00", end_time := "15:00", responsibility_name := none,
       responsibility_color := none : ScheduleView }.responsibility_color =
      (resolveResponsibility opsDB 739345 1).map (fun rp => rp.color)) ∧
    resolveResponsibility (set_weekly_responsibility opsDB 739352 1 (some 1)) 739345 1 =
      resolveResponsibility opsDB 739345 1 := by
  constructor
  · have h := claim_C3_responsibility_resolution.1 opsDB 739345 739345
      { id := 1, date := 739345, shift_id := 1, member_id := 1,
        member_name := "Alice", role_name := some "Lead", shift_name := "Early",
        start_time := "07:00", end_time := "15:00", responsibility_name := none,
        responsibility_color := none } (by decide)
    exact h
  · exact claim_C3_responsibility_resolution.2 opsDB 739352 1 (some 1) 739345 1
      (by decide)

/-! ## C8: the weekly-responsibility upsert over call sequences -/

/-- `find?` commutes with a map that does not change which elements
satisfy the predicate. -/
theorem find?_map_pred {α : Type} (f : α → α) (p : α → Bool)
    (hp : ∀ a, p (f a) = p a) (l : List α) :
    (l.map f).find? p = (l.find? p).map f := by
  induction l with
  | nil => rfl
  | cons a t ih =>
    simp only [List.map_cons]
    rcases ha : p a with _ | _
    · rw [List.find?_cons_of_neg _ (by simp [hp, ha]),
          List.find?_cons_of_neg _ (by simp [ha]), ih]
    · rw [List.find?_cons_of_pos _ (by simp [hp, ha]),
          List.find?_cons_of_pos _ (by simp [ha])]
      rfl

/-- If nothing in `l` satisfies `p` but the appended `x` does, `find?`
returns `x`. -/
theorem find?_append_single_pos {α : Type} (p : α → Bool) (x : α)
    (hx : p x = true) (l : List α) (hl : l.find? p = none) :
    (l ++ [x]).find? p = some x := by
  induction l with
  | nil => simp [List.find?, hx]
  | cons a t ih =>
    rcases ha : p a with _ | _
    · rw [List.find?_cons_of_neg _ (by simp [ha])] at hl
      rw [List.cons_append, List.find?_cons_of_neg _ (by simp [ha]), ih hl]
    · rw [List.find?_cons_of_pos _ (by simp [ha])] at hl
      exact absurd hl (by simp)

/-- The upsert preserves key uniqueness of the stored rows. -/
theorem wrUnique_set (db : DB) (ws mid : Nat) (rid : Option Nat)
    (h : wrUnique db) : wrUnique (set_weekly_responsibility db ws mid rid) := by
  unfold wrUnique set_weekly_responsibility
  by_cases hany :
      (db.weekly_responsibilities.any (fun w => wrKeyMatches w ws mid)) = true
  · rw [if_pos hany]
    show (db.weekly_responsibilities.map (fun w =>
        if wrKeyMatches w ws mid
        then ({ w with responsibility_id := rid } : WeeklyResponsibilityRow)
        else w)).Pairwise
      (fun (w1 w2 : WeeklyResponsibilityRow) =>
        (w1.week_start_date, w1.member_id) ≠ (w2.week_start_date, w2.member_id))
    rw [List.pairwise_map]
    have hkey : ∀ w : WeeklyResponsibilityRow,
        ((if wrKeyMatches w ws mid then { w with responsibility_id := rid }
          else w).week_start_date,
         (if wrKeyMatches w ws mid then { w with responsibility_id := rid }
          else w).member_id) = (w.week_start_date, w.member_id) := by
      intro w
      by_cases hk : wrKeyMatches w ws mid = true <;> simp [hk]
    exact h.imp (fun hab => by rw [hkey, hkey]; exact hab)
  · rw [if_neg hany]
    show (db.weekly_responsibilities ++
        [({ id := db.next_wr_id, week_start_date := ws, member_id := mid,
            responsibility_id := rid } : WeeklyResponsibilityRow)]).Pairwise
      (fun (w1 w2 : WeeklyResponsibilityRow) =>
        (w1.week_start_date, w1.member_id) ≠ (w2.week_start_date, w2.member_id))
    rw [List.pairwise_append]
    refine ⟨h, List.pairwise_singleton _ _, ?_⟩
    intro a ha b hb
    rw [List.mem_singleton] at hb
    subst hb
    have hka : wrKeyMatches a ws mid = false := by
      have := List.any_eq_false.mp ((Bool.not_eq_true _).mp hany) a ha
      simpa using this
    simp only [wrKeyMatches, Bool.and_eq_true, beq_iff_eq] at hka ⊢
    intro hcon
    rw [Prod.mk.injEq] at hcon
    rw [Bool.and_eq_false_iff] at hka
    rcases hka with hk | hk
    · exact absurd (by simpa using hcon.1) (by simpa using hk)
    · exact absurd (by simpa using hcon.2) (by simpa using hk)

/-- After the upsert, the lookup for its own key finds a row whose value
is exactly the upserted responsibility. -/
theorem wrLookup_set_self (db : DB) (ws mid : Nat) (rid : Option Nat) :
    ∃ w, wrLookup (set_weekly_responsibility db ws mid rid) ws mid = some w ∧
      w.responsibility_id = rid := by
  unfold wrLookup set_weekly_responsibility
  by_cases hany :
      (db.weekly_responsibilities.any (fun w => wrKeyMatches w ws mid)) = true
  · simp only [hany, if_true]
    rw [find?_map_pred _ _ (fun w => by
      by_cases hk : wrKeyMatches w ws mid = true
      · rw [if_pos hk]
        rfl
      · rw [if_neg hk])]
    have hsome : (db.weekly_responsibilities.find?
        (fun w => wrKeyMatches w ws mid)).isSome := by
      rw [List.find?_isSome]
      simpa [List.any_eq_true] using hany
    obtain ⟨w0, hw0⟩ := Option.isSome_iff_exists.mp hsome
    have hk0 := List.find?_some hw0
    rw [hw0]
    exact ⟨{ w0 with responsibility_id := rid }, by simp [hk0], rfl⟩
  · simp only [hany, if_false]
    refine ⟨{ id := db.next_wr_id, week_start_date := ws, member_id := mid,
              responsibility_id := rid }, ?_, rfl⟩
    apply find?_append_single_pos
    · simp [wrKeyMatches]
    · rw [List.find?_eq_none]
      intro x hx
      simpa using List.any_eq_false.mp ((Bool.not_eq_true _).mp hany) x hx

/-- A call sequence containing no call for a key leaves that key's lookup
unchanged. -/
theorem wrLookup_applyWRCalls_frame (calls : List (Nat × Nat × Option Nat))
    (db : DB) (ws mid : Nat) (h : lastValueFor calls ws mid = none) :
    wrLookup (applyWRCalls db calls) ws mid = wrLookup db ws mid := by
  induction calls generalizing db with
  | nil => rfl
  | cons c rest ih =>
    unfold lastValueFor at h
    rcases hrest : lastValueFor rest ws mid with _ | v
    · rw [hrest] at h
      by_cases hc : (c.1 == ws && c.2.1 == mid) = true
      · rw [if_pos hc] at h
        exact absurd h (by simp)
      · show wrLookup (applyWRCalls (set_weekly_responsibility db c.1 c.2.1 c.2.2) rest)
            ws mid = wrLookup db ws mid
        rw [ih _ hrest]
        apply wrLookup_set_frame
        simp only [Bool.and_eq_true, beq_iff_eq] at hc
        rcases not_and_or.mp hc with hk | hk
        · exact Or.inl (fun hcon => hk hcon.symm)
        · exact Or.inr (fun hcon => hk hcon.symm)
    · rw [hrest] at h
      exact absurd h (by simp)

/-- The final store of a call sequence maps each touched key to the value
of its most recent call. -/
theorem applyWRCalls_last (calls : List (Nat × Nat × Option Nat)) (db : DB)
    (ws mid : Nat) (rid : Option Nat) (h : lastValueFor calls ws mid = some rid) :
    ∃ w, wrLookup (applyWRCalls db calls) ws mid = some w ∧
      w.responsibility_id = rid := by
  induction calls generalizing db with
  | nil => exact absurd h (by simp [lastValueFor])
  | cons c rest ih =>
    unfold lastValueFor at h
    rcases hrest : lastValueFor rest ws mid with _ | v
    · rw [hrest] at h
      by_cases hc : (c.1 == ws && c.2.1 == mid) = true
      · rw [if_pos hc] at h
        simp only [Option.some.injEq] at h
        simp only [Bool.and_eq_true, beq_iff_eq] at hc
        show ∃ w, wrLookup (applyWRCalls (set_weekly_responsibility db c.1 c.2.1 c.2.2)
            rest) ws mid = some w ∧ w.responsibility_id = rid
        rw [wrLookup_applyWRCalls_frame rest _ ws mid hrest, hc.1, hc.2, h]
        exact wrLookup_set_self db ws mid rid
      · rw [if_neg hc] at h
        exact absurd h (by simp)
    · rw [hrest] at h
      simp only [Option.some.injEq] at h
      subst h
      exact ih (set_weekly_responsibility db c.1 c.2.1 c.2.2) hrest

/-- Pairwise-distinct keys imply at most one stored row per key. -/
theorem wr_filter_key_length_le_one (l : List WeeklyResponsibilityRow)
    (h : l.Pairwise (fun (w1 w2 : WeeklyResponsibilityRow) =>
      (w1.week_start_date, w1.member_id) ≠ (w2.week_start_date, w2.member_id)))
    (ws mid : Nat) :
    (l.filter (fun w => wrKeyMatches w ws mid)).length ≤ 1 := by
  induction l with
  | nil => simp
  | cons a t ih =>
    rw [List.pairwise_cons] at h
    by_cases hk : wrKeyMatches a ws mid = true
    · have hnil : t.filter (fun w => wrKeyMatches w ws mid) = [] := by
        rw [List.filter_eq_nil_iff]
        intro b hb hbk
        have hk2 := hk
        simp only [wrKeyMatches, Bool.and_eq_true, beq_iff_eq] at hk2 hbk
        exact h.1 b hb (by rw [Prod.mk.injEq]
                           exact ⟨hk2.1.trans hbk.1.symm, hk2.2.trans hbk.2.symm⟩)
      simp [List.filter_cons, hk, hnil]
    · have hres := ih h.2
      simpa [List.filter_cons, hk] using hres

/-- C8.  After any sequence of `set_weekly_responsibility` calls applied
to a store whose WeeklyResponsibility keys are unique, the store still
holds at most one row per `(weekStart, member)` pair, and for every pair
touched by the sequence the stored row's responsibility value equals the
value passed by the most recent call for that pair — including when that
value is `none`/clear, in which case the row persists with an empty
responsibility rather than being removed. -/
theorem claim_C8_weekly_responsibility_upsert (db : DB)
    (calls : List (Nat × Nat × Option Nat)) (ws mid : Nat)
    (h : wrUnique db) :
    wrUnique (applyWRCalls db calls) ∧
    (∀ ws2 mid2, ((applyWRCalls db calls).weekly_responsibilities.filter
        (fun w => wrKeyMatches w ws2 mid2)).length ≤ 1) ∧
    (∀ rid, lastValueFor calls ws mid = some rid →
      ∃ w, wrLookup (applyWRCalls db calls) ws mid = some w ∧
        w.responsibility_id = rid) := by
  have hu : wrUnique (applyWRCalls db calls) := by
    induction calls generalizing db with
    | nil => exact h
    | cons c rest ih => exact ih _ (wrUnique_set db c.1 c.2.1 c.2.2 h)
  exact ⟨hu, fun ws2 mid2 => wr_filter_key_length_le_one _ hu ws2 mid2,
         fun rid hr => applyWRCalls_last calls db ws mid rid hr⟩

/-- Witness for C8 at a concrete input: starting from `opsDB` (no stored
weekly responsibilities), the sequence sets week 739345 / member 1 to
responsibility 1, then clears it; the final store keeps at most one row
per key and the key's row holds `none`. -/
theorem claim_C8_witness :
    wrUnique (applyWRCalls opsDB [(739345, 1, some 1), (739345, 1, none)]) ∧
    (∀ ws2 mid2,
      ((applyWRCalls opsDB [(739345, 1, some 1), (739345, 1, none)]).weekly_responsibilities.filter
        (fun w => wrKeyMatches w ws2 mid2)).length ≤ 1) ∧
    (∀ rid, lastValueFor [(739345, 1, some 1), (739345, 1, none)] 739345 1 = some rid →
      ∃ w, wrLookup (applyWRCalls opsDB [(739345, 1, some 1), (739345, 1, none)])
          739345 1 = some w ∧
        w.responsibility_id = rid) :=
  claim_C8_weekly_responsibility_upsert opsDB
    [(739345, 1, some 1), (739345, 1, none)] 739345 1 (List.Pairwise.nil)

/-! ## C1/C2: the bulk auto-population algorithm -/

theorem populateDay_cons (absences : List AbsenceRow) (d : Nat) (db : DB)
    (m : MemberRow) (rest : List MemberRow) :
    populateDay absences d db (m :: rest) =
      ((populateDay absences d
          (match m.shift_id with
           | none => (db, 0)
           | some sid =>
             if memberAbsentOn absences m.id d then (db, 0)
             else
               let ins := tryInsertSchedule db d sid m.id
               (ins.1, if ins.2 then 1 else 0)).1 rest).1,
       (match m.shift_id with
        | none => ((db, 0) : DB × Nat)
        | some sid =>
          if memberAbsentOn absences m.id d then (db, 0)
          else
            let ins := tryInsertSchedule db d sid m.id
            (ins.1, if ins.2 then 1 else 0)).2 +
       (populateDay absences d
          (match m.shift_id with
           | none => (db, 0)
           | some sid =>
             if memberAbsentOn absences m.id d then (db, 0)
             else
               let ins := tryInsertSchedule db d sid m.id
               (ins.1, if ins.2 then 1 else 0)).1 rest).2) := rfl

theorem populateDates_cons (absences : List AbsenceRow) (members : List MemberRow)
    (db : DB) (d : Nat) (rest : List Nat) :
    populateDates absences members db (d :: rest) =
      ((populateDates absences members
          (if pyWeekday d < 5 then populateDay absences d db members
           else (db, 0)).1 rest).1,
       (if pyWeekday d < 5 then populateDay absences d db members
        else ((db, 0) : DB × Nat)).2 +
       (populateDates absences members
          (if pyWeekday d < 5 then populateDay absences d db members
           else (db, 0)).1 rest).2) := rfl

theorem tryInsertSchedule_frame (db : DB) (d sid mid : Nat) :
    (tryInsertSchedule db d sid mid).1.team_members = db.team_members ∧
    (tryInsertSchedule db d sid mid).1.absences = db.absences := by
  unfold tryInsertSchedule
  by_cases hk : hasScheduleTriple db.schedules d sid mid = true <;> simp [hk]

theorem populateDay_frame (absences : List AbsenceRow) (d : Nat)
    (ms : List MemberRow) : ∀ db : DB,
    (populateDay absences d db ms).1.team_members = db.team_members ∧
    (populateDay absences d db ms).1.absences = db.absences := by
  induction ms with
  | nil => intro db; exact ⟨rfl, rfl⟩
  | cons m rest ih =>
    intro db
    rw [populateDay_cons]
    rcases hshift : m.shift_id with _ | sid
    · simpa using ih db
    · by_cases hab : memberAbsentOn absences m.id d = true
      · simpa [hab] using ih db
      · simp only [hab]
        have h1 := tryInsertSchedule_frame db d sid m.id
        have h2 := ih (tryInsertSchedule db d sid m.id).1
        simp only [Bool.false_eq_true, if_false]
        exact ⟨h2.1.trans h1.1, h2.2.trans h1.2⟩

theorem populateDates_frame (absences : List AbsenceRow) (members : List MemberRow)
    (ds : List Nat) : ∀ db : DB,
    (populateDates absences members db ds).1.team_members = db.team_members ∧
    (populateDates absences members db ds).1.absences = db.absences := by
  induction ds with
  | nil => intro db; exact ⟨rfl, rfl⟩
  | cons d rest ih =>
    intro db
    rw [populateDates_cons]
    by_cases hw : pyWeekday d < 5
    · have h1 := populateDay_frame absences d members db
      have h2 := ih (populateDay absences d db members).1
      simp only [hw, if_true]
      exact ⟨h2.1.trans h1.1, h2.2.trans h1.2⟩
    · simpa [hw] using ih db

/-- Effect of one day's inner loop: the schedule table only grows, the
returned count is exactly the number of appended rows, and every appended
row belongs to a listed member with that default shift who is not absent
on the (fixed) date. -/
theorem populateDay_spec (absences : List AbsenceRow) (d : Nat)
    (ms : List MemberRow) : ∀ db : DB, ∃ new,
    (populateDay absences d db ms).1.schedules = db.schedules ++ new ∧
    (populateDay absences d db ms).2 = new.length ∧
    ∀ r ∈ new, r.date = d ∧ ∃ m ∈ ms, m.id = r.member_id ∧
      m.shift_id = some r.shift_id ∧ memberAbsentOn absences m.id d = false := by
  induction ms with
  | nil =>
    intro db
    exact ⟨[], by simp [populateDay], by simp [populateDay], by simp⟩
  | cons m rest ih =>
    intro db
    rw [populateDay_cons]
    rcases hshift : m.shift_id with _ | sid
    · obtain ⟨new, h1, h2, h3⟩ := ih db
      refine ⟨new, by simpa using h1, by simpa using h2, ?_⟩
      intro r hr
      obtain ⟨hd, m', hm', hrest⟩ := h3 r hr
      exact ⟨hd, m', List.mem_cons_of_mem _ hm', hrest⟩
    · by_cases hab : memberAbsentOn absences m.id d = true
      · obtain ⟨new, h1, h2, h3⟩ := ih db
        refine ⟨new, by simpa [hab] using h1, by simpa [hab] using h2, ?_⟩
        intro r hr
        obtain ⟨hd, m', hm', hrest⟩ := h3 r hr
        exact ⟨hd, m', List.mem_cons_of_mem _ hm', hrest⟩
      · rw [Bool.not_eq_true] at hab
        by_cases hk : hasScheduleTriple db.schedules d sid m.id = true
        · obtain ⟨new, h1, h2, h3⟩ := ih db
          refine ⟨new, ?_, ?_, ?_⟩
          · simpa [hab, tryInsertSchedule, hk] using h1
          · simpa [hab, tryInsertSchedule, hk] using h2
          · intro r hr
            obtain ⟨hd, m', hm', hrest⟩ := h3 r hr
            exact ⟨hd, m', List.mem_cons_of_mem _ hm', hrest⟩
        · obtain ⟨new, h1, h2, h3⟩ :=
            ih { db with
                  schedules := db.schedules ++
                    [{ id := db.next_schedule_id, date := d, shift_id := sid,
                       member_id := m.id }],
                  next_schedule_id := db.next_schedule_id + 1 }
          refine ⟨{ id := db.next_schedule_id, date := d, shift_id := sid,
                    member_id := m.id } :: new, ?_, ?_, ?_⟩
          · simp only [hab, tryInsertSchedule, hk, Bool.false_eq_true, if_false]
            rw [h1]
            simp
          · simp only [hab, tryInsertSchedule, hk, Bool.false_eq_true, if_false]
            rw [h2]
            simp only [if_true, List.length_cons]
            omega
          · intro r hr
            rcases List.mem_cons.mp hr with heq | hmem
            · subst heq
              exact ⟨rfl, m, List.mem_cons_self _ _, rfl, by rw [hshift], hab⟩
            · obtain ⟨hd, m', hm', hrest⟩ := h3 r hmem
              exact ⟨hd, m', List.mem_cons_of_mem _ hm', hrest⟩

/-- Effect of the date loop: appended rows only, count = number appended,
and every appended row is on a listed weekday date for an eligible,
non-absent member. -/
theorem populateDates_spec (absences : List AbsenceRow) (members : List MemberRow)
    (ds : List Nat) : ∀ db : DB, ∃ new,
    (populateDates absences members db ds).1.schedules = db.schedules ++ new ∧
    (populateDates absences members db ds).2 = new.length ∧
    ∀ r ∈ new, r.date ∈ ds ∧ pyWeekday r.date < 5 ∧
      ∃ m ∈ members, m.id = r.member_id ∧ m.shift_id = some r.shift_id ∧
        memberAbsentOn absences m.id r.date = false := by
  induction ds with
  | nil =>
    intro db
    exact ⟨[], by simp [populateDates], by simp [populateDates], by simp⟩
  | cons d rest ih =>
    intro db
    rw [populateDates_cons]
    by_cases hw : pyWeekday d < 5
    · obtain ⟨new1, g1, g2, g3⟩ := populateDay_spec absences d members db
      obtain ⟨new2, h1, h2, h3⟩ := ih (populateDay absences d db members).1
      refine ⟨new1 ++ new2, ?_, ?_, ?_⟩
      · simp only [hw, if_true]
        rw [h1, g1, List.append_assoc]
      · simp only [hw, if_true]
        rw [h2, g2, List.length_append]
      · intro r hr
        rcases List.mem_append.mp hr with hmem | hmem
        · obtain ⟨hd, m', hm', hsid, habs⟩ := g3 r hmem
          exact ⟨by rw [hd]; exact List.mem_cons_self _ _, by rw [hd]; exact hw,
                 m', hm', hsid, by rw [hd]; exact habs⟩
        · obtain ⟨hd, hw', hrest⟩ := h3 r hmem
          exact ⟨List.mem_cons_of_mem _ hd, hw', hrest⟩
    · obtain ⟨new, h1, h2, h3⟩ := ih db
      refine ⟨new, by simpa [hw] using h1, by simpa [hw] using h2, ?_⟩
      intro r hr
      obtain ⟨hd, hw', hrest⟩ := h3 r hr
      exact ⟨List.mem_cons_of_mem _ hd, hw', hrest⟩

/-- A triple already present stays present through the inner loop. -/
theorem populateDay_mono (absences : List AbsenceRow) (d : Nat)
    (ms : List MemberRow) (db : DB) (d0 sid0 mid0 : Nat)
    (h : hasScheduleTriple db.schedules d0 sid0 mid0 = true) :
    hasScheduleTriple (populateDay absences d db ms).1.schedules d0 sid0 mid0 = true := by
  obtain ⟨new, h1, _, _⟩ := populateDay_spec absences d ms db
  rw [h1, hasScheduleTriple_append, h]
  rfl

/-- A triple already present stays present through the date loop. -/
theorem populateDates_mono (absences : List AbsenceRow) (members : List MemberRow)
    (ds : List Nat) (db : DB) (d0 sid0 mid0 : Nat)
    (h : hasScheduleTriple db.schedules d0 sid0 mid0 = true) :
    hasScheduleTriple (populateDates absences members db ds).1.schedules d0 sid0 mid0 = true := by
  obtain ⟨new, h1, _, _⟩ := populateDates_spec absences members ds db
  rw [h1, hasScheduleTriple_append, h]
  rfl

/-- Completeness of the inner loop: after it runs, every listed member
with a default shift who is not absent has their row present. -/
theorem populateDay_mem (absences : List AbsenceRow) (d : Nat)
    (ms : List MemberRow) (m : MemberRow) (hm : m ∈ ms) (sid : Nat)
    (hs : m.shift_id = some sid)
    (hab : memberAbsentOn absences m.id d = false) :
    ∀ db : DB,
    hasScheduleTriple (populateDay absences d db ms).1.schedules d sid m.id = true := by
  induction ms with
  | nil => cases hm
  | cons m0 rest ih =>
    intro db
    rw [populateDay_cons]
    rcases List.mem_cons.mp hm with heq | hmem
    · subst heq
      rw [hs]
      simp only [hab, Bool.false_eq_true, if_false]
      have hstep : hasScheduleTriple
          (tryInsertSchedule db d sid m.id).1.schedules d sid m.id = true := by
        unfold tryInsertSchedule
        by_cases hk : hasScheduleTriple db.schedules d sid m.id = true
        · simp [hk]
        · simp only [hk, Bool.false_eq_true, if_false]
          rw [hasScheduleTriple_append]
          have hone : hasScheduleTriple
              [{ id := db.next_schedule_id, date := d, shift_id := sid,
                 member_id := m.id }] d sid m.id = true := by
            simp [hasScheduleTriple]
          rw [hone]
          simp
      exact populateDay_mono absences d rest _ d sid m.id hstep
    · exact ih hmem _

/-- Completeness of the date loop: every listed weekday date gets a row
for every eligible, non-absent member. -/
theorem populateDates_mem (absences : List AbsenceRow) (members : List MemberRow)
    (ds : List Nat) (d : Nat) (hd : d ∈ ds) (hw : pyWeekday d < 5)
    (m : MemberRow) (hm : m ∈ members) (sid : Nat) (hs : m.shift_id = some sid)
    (hab : memberAbsentOn absences m.id d = false) :
    ∀ db : DB,
    hasScheduleTriple (populateDates absences members db ds).1.schedules d sid m.id = true := by
  induction ds with
  | nil => cases hd
  | cons d0 rest ih =>
    intro db
    rw [populateDates_cons]
    rcases List.mem_cons.mp hd with heq | hmem
    · subst heq
      simp only [hw, if_true]
      exact populateDates_mono absences members rest _ d sid m.id
        (populateDay_mem absences d members m hm sid hs hab db)
    · exact ih hmem _

/-- One insertion attempt keeps every triple stored at most once. -/
theorem tryInsertSchedule_count_le (db : DB) (d sid mid : Nat)
    (h : ∀ d0 s0 m0, scheduleCount db.schedules d0 s0 m0 ≤ 1) :
    ∀ d0 s0 m0,
      scheduleCount (tryInsertSchedule db d sid mid).1.schedules d0 s0 m0 ≤ 1 := by
  intro d0 s0 m0
  unfold tryInsertSchedule
  by_cases hk : hasScheduleTriple db.schedules d sid mid = true
  · simpa [hk] using h d0 s0 m0
  · simp only [hk, Bool.false_eq_true, if_false]
    rw [scheduleCount_append, scheduleCount_singleton]
    by_cases hc : ((d : Nat) == d0 && (sid : Nat) == s0 && (mid : Nat) == m0) = true
    · simp only [Bool.and_eq_true, beq_iff_eq] at hc
      obtain ⟨⟨hcd, hcs⟩, hcm⟩ := hc
      subst hcd
      subst hcs
      subst hcm
      rw [scheduleCount_eq_zero db.schedules d sid mid
        ((Bool.not_eq_true _).mp hk)]
      simp
    · have hc' : ((d : Nat) == d0 && (sid : Nat) == s0 && (mid : Nat) == m0) = false :=
        (Bool.not_eq_true _).mp hc
      rw [hc']
      simpa using h d0 s0 m0

theorem populateDay_count_le (absences : List AbsenceRow) (d : Nat)
    (ms : List MemberRow) : ∀ db : DB,
    (∀ d0 s0 m0, scheduleCount db.schedules d0 s0 m0 ≤ 1) →
    ∀ d0 s0 m0,
      scheduleCount (populateDay absences d db ms).1.schedules d0 s0 m0 ≤ 1 := by
  induction ms with
  | nil => intro db h; exact h
  | cons m rest ih =>
    intro db h
    rw [populateDay_cons]
    rcases hshift : m.shift_id with _ | sid
    · exact ih db h
    · by_cases hab : memberAbsentOn absences m.id d = true
      · simp only [hab, if_true]
        exact ih db h
      · simp only [hab, Bool.false_eq_true, if_false]
        exact ih _ (tryInsertSchedule_count_le db d sid m.id h)

theorem populateDates_count_le (absences : List AbsenceRow)
    (members : List MemberRow) (ds : List Nat) : ∀ db : DB,
    (∀ d0 s0 m0, scheduleCount db.schedules d0 s0 m0 ≤ 1) →
    ∀ d0 s0 m0,
      scheduleCount (populateDates absences members db ds).1.schedules d0 s0 m0 ≤ 1 := by
  induction ds with
  | nil => intro db h; exact h
  | cons d rest ih =>
    intro db h
    rw [populateDates_cons]
    by_cases hw : pyWeekday d < 5
    · simp only [hw, if_true]
      exact ih _ (populateDay_count_le absences d members db h)
    · simp only [hw, if_false]
      exact ih db h

theorem mem_schedDates (s e d : Nat) :
    d ∈ schedDates s e ↔ s ≤ d ∧ d ≤ e := by
  unfold schedDates
  simp only [List.mem_map, List.mem_range]
  constructor
  · rintro ⟨i, hi, rfl⟩
    omega
  · rintro ⟨h1, h2⟩
    exact ⟨d - s, by omega, by omega⟩

/-- C1.  For every date range, `auto_populate_schedules_for_date_range`
(the spec's `populateRange`) returns the number of rows it actually
appended; every appended row lies in `[startDate, endDate]`, falls on a
Monday–Friday weekday (never Saturday or Sunday), belongs to an active
member whose default shift is the row's shift, and is never for a member
absent on that date; conversely a row exists afterwards for every
weekday date in range and every active, non-absent member with a default
shift; per-triple uniqueness is preserved, so each such row is stored
exactly once.  In the scenario of one active member with default shift
"Early" and no absences, the call over 2024-06-03..2024-06-07 returns 5. -/
theorem claim_C1_auto_populate_range :
    (∀ (db : DB) (s e : Nat),
      (∃ new,
        (auto_populate_schedules_for_date_range db s e).1.schedules =
          db.schedules ++ new ∧
        (auto_populate_schedules_for_date_range db s e).2 = new.length ∧
        ∀ r ∈ new, s ≤ r.date ∧ r.date ≤ e ∧ pyWeekday r.date < 5 ∧
          (∃ m ∈ db.team_members, m.active = true ∧ m.id = r.member_id ∧
            m.shift_id = some r.shift_id) ∧
          memberAbsentOn (overlappingAbsences db.absences s e)
            r.member_id r.date = false) ∧
      (∀ d sid mid, s ≤ d → d ≤ e → pyWeekday d < 5 →
        (∃ m ∈ db.team_members, m.active = true ∧ m.id = mid ∧
          m.shift_id = some sid) →
        memberAbsentOn (overlappingAbsences db.absences s e) mid d = false →
        hasScheduleTriple (auto_populate_schedules_for_date_range db s e).1.schedules
          d sid mid = true) ∧
      ((∀ d0 s0 m0, scheduleCount db.schedules d0 s0 m0 ≤ 1) →
        ∀ d0 s0 m0, scheduleCount
          (auto_populate_schedules_for_date_range db s e).1.schedules d0 s0 m0 ≤ 1)) ∧
    (auto_populate_schedules_for_date_range seedDB 739345 739349).2 = 5 := by
  refine ⟨fun db s e => ⟨?_, ?_, ?_⟩, by decide⟩
  · obtain ⟨new, h1, h2, h3⟩ := populateDates_spec
      (overlappingAbsences db.absences s e)
      (db.team_members.filter (fun m => m.active && m.shift_id.isSome))
      (schedDates s e) db
    refine ⟨new, h1, h2, ?_⟩
    intro r hr
    obtain ⟨hd, hw, m, hm, hid, hsid, hab⟩ := h3 r hr
    have hrange := (mem_schedDates s e r.date).mp hd
    obtain ⟨hmem, hpred⟩ := List.mem_filter.mp hm
    rw [Bool.and_eq_true] at hpred
    rw [hid] at hab
    exact ⟨hrange.1, hrange.2, hw, ⟨m, hmem, hpred.1, hid, hsid⟩, hab⟩
  · intro d sid mid h1 h2 h3 hex hab
    obtain ⟨m, hm, hact, hid, hsid⟩ := hex
    have hmf : m ∈ db.team_members.filter (fun m => m.active && m.shift_id.isSome) :=
      List.mem_filter.mpr ⟨hm, by rw [Bool.and_eq_true]
                                  exact ⟨hact, by rw [hsid]; rfl⟩⟩
    have hres := populateDates_mem (overlappingAbsences db.absences s e) _
      (schedDates s e) d ((mem_schedDates s e d).mpr ⟨h1, h2⟩) h3 m hmf sid hsid
      (by rw [hid]; exact hab) db
    rw [hid] at hres
    exact hres
  · intro h
    exact populateDates_count_le _ _ _ db h

/-- Witness for C1 at the seeded scenario: after populating
2024-06-03..07, the Monday row for member 1 / shift 1 exists and is
stored exactly once (starting from an empty schedule table). -/
theorem claim_C1_witness :
    hasScheduleTriple
      (auto_populate_schedules_for_date_range seedDB 739345 739349).1.schedules
      739345 1 1 = true ∧
    scheduleCount
      (auto_populate_schedules_for_date_range seedDB 739345 739349).1.schedules
      739345 1 1 ≤ 1 := by
  have h := claim_C1_auto_populate_range.1 seedDB 739345 739349
  refine ⟨?_, ?_⟩
  · exact h.2.1 739345 1 1 (by decide) (by decide) (by decide)
      ⟨{ id := 1, name := "Alice", role_id := none, team_id := some 1,
         shift_id := some 1, active := true },
       by decide, by decide, by decide, by decide⟩ (by decide)
  · exact h.2.2 (fun d0 s0 m0 => by simp [seedDB, scheduleCount]) 739345 1 1

/-- If every eligible member's row for the date is already present, the
inner loop changes nothing and counts nothing. -/
theorem populateDay_noop (absences : List AbsenceRow) (d : Nat)
    (ms : List MemberRow) : ∀ db : DB,
    (∀ m ∈ ms, ∀ sid, m.shift_id = some sid →
      memberAbsentOn absences m.id d = false →
      hasScheduleTriple db.schedules d sid m.id = true) →
    populateDay absences d db ms = (db, 0) := by
  induction ms with
  | nil => intro db _; rfl
  | cons m rest ih =>
    intro db h
    rw [populateDay_cons]
    have hstep : (match m.shift_id with
        | none => ((db, 0) : DB × Nat)
        | some sid =>
          if memberAbsentOn absences m.id d then (db, 0)
          else
            let ins := tryInsertSchedule db d sid m.id
            (ins.1, if ins.2 then 1 else 0)) = (db, 0) := by
      rcases hshift : m.shift_id with _ | sid
      · rfl
      · by_cases hab : memberAbsentOn absences m.id d = true
        · simp [hab]
        · have hk := h m (List.mem_cons_self _ _) sid hshift
            ((Bool.not_eq_true _).mp hab)
          simp [hab, tryInsertSchedule, hk]
    rw [hstep]
    have hrest := ih db (fun m' hm' sid hs hab =>
      h m' (List.mem_cons_of_mem _ hm') sid hs hab)
    rw [hrest]
    rfl

/-- If every eligible row over the listed dates is already present, the
date loop changes nothing and counts nothing. -/
theorem populateDates_noop (absences : List AbsenceRow) (members : List MemberRow)
    (ds : List Nat) : ∀ db : DB,
    (∀ d ∈ ds, pyWeekday d < 5 → ∀ m ∈ members, ∀ sid, m.shift_id = some sid →
      memberAbsentOn absences m.id d = false →
      hasScheduleTriple db.schedules d sid m.id = true) →
    populateDates absences members db ds = (db, 0) := by
  induction ds with
  | nil => intro db _; rfl
  | cons d rest ih =>
    intro db h
    rw [populateDates_cons]
    have hstep : (if pyWeekday d < 5 then populateDay absences d db members
        else ((db, 0) : DB × Nat)) = (db, 0) := by
      by_cases hw : pyWeekday d < 5
      · rw [if_pos hw]
        exact populateDay_noop absences d members db
          (fun m hm sid hs hab => h d (List.mem_cons_self _ _) hw m hm sid hs hab)
      · rw [if_neg hw]
    rw [hstep]
    have hrest := ih db (fun d' hd' hw m hm sid hs hab =>
      h d' (List.mem_cons_of_mem _ hd') hw m hm sid hs hab)
    rw [hrest]
    rfl

/-- C2.  `auto_populate_schedules_for_date_range` is idempotent: running
it a second time over the same range with no intervening changes returns
the first call's store completely unchanged together with count 0 — every
insertion attempt of the second call hits the `(date, shift, member)`
uniqueness constraint and is silently skipped without being counted, and
no error reaches the caller (the operation is a total function). -/
theorem claim_C2_auto_populate_idempotent (db : DB) (s e : Nat) :
    auto_populate_schedules_for_date_range
        (auto_populate_schedules_for_date_range db s e).1 s e =
      ((auto_populate_schedules_for_date_range db s e).1, 0) := by
  have hframe := populateDates_frame (overlappingAbsences db.absences s e)
    (db.team_members.filter (fun m => m.active && m.shift_id.isSome))
    (schedDates s e) db
  show populateDates
      (overlappingAbsences
        (auto_populate_schedules_for_date_range db s e).1.absences s e)
      ((auto_populate_schedules_for_date_range db s e).1.team_members.filter
        (fun m => m.active && m.shift_id.isSome))
      (auto_populate_schedules_for_date_range db s e).1 (schedDates s e) =
    ((auto_populate_schedules_for_date_range db s e).1, 0)
  rw [show (auto_populate_schedules_for_date_range db s e).1.absences = db.absences
        from hframe.2,
      show (auto_populate_schedules_for_date_range db s e).1.team_members =
          db.team_members from hframe.1]
  apply populateDates_noop
  intro d hd hw m hm sid hs hab
  obtain ⟨hmem, hpred⟩ := List.mem_filter.mp hm
  exact populateDates_mem (overlappingAbsences db.absences s e) _
    (schedDates s e) d hd hw m hm sid hs hab db

/-! ## C7: team deletion under an existing role reference -/

/-- C7 (code bug).  `delete_team` is a bare `DELETE FROM teams WHERE id=?`
on a connection that never runs `PRAGMA foreign_keys = ON`, so the FOREIGN
KEY declared by the schema is not enforced: on the failing input — store
`opsDB`, whose role 1 ("Lead") references team 1 ("Ops") — `delete_team 1`
returns normally with the team removed (it also disappears from
`get_all_teams`) while the role still carries the now-dangling
`team_id = 1`, instead of failing with a ReferentialIntegrityError and
leaving the team in place as the claim (and the schema's declared
constraint) requires. -/
theorem claim_C7_delete_team_unenforced :
    delete_team opsDB 1 = { opsDB with teams := [] } ∧
    get_all_teams (delete_team opsDB 1) = [] ∧
    (delete_team opsDB 1).roles =
      [{ id := 1, name := "Lead", color := "#00ff00", team_id := some 1 }] := by
  refine ⟨by decide, by decide, by decide⟩
